import Mathlib

/-!
Shallow embedding of `pkg/tar/stream.go` (aiven/influxdb): the directory-to-tar
archiver (`Stream`, `StreamFile`, `StreamRenameFile`, `SinceFilterTarFile`) and
the tar-to-directory restorer (`Restore`, `extractFile`, `CreateFileFromTar`),
together with the Go `path/filepath` helpers the file uses.

Modelling conventions:
* The host is Unix: `filepath.Separator` is `'/'`, so `filepath.ToSlash` and
  `filepath.FromSlash` are the identity.
* Byte streams are `List Nat`; times are `Int` (nanoseconds since epoch, which
  is all `time.Time.After` needs); file modes are `Nat`.
* Writes to the tar writer are recorded as a trace of `TarAction`s, and
  filesystem side effects of the restorer as a trace of `FsAction`s; a small
  interpreter (`runActions`) gives file-content semantics to the restore
  actions, truncating on open only when `O_TRUNC` is among the flags the code
  passed, exactly as POSIX `open` does.
* `io.CopyN(dst, src, n)` copies `min n src.length` bytes and reports an error
  when fewer than `n` were available: `io.EOF` when the source is a plain file
  (`os.File` read at end-of-file), `io.ErrUnexpectedEOF` when the source is a
  `tar.Reader` positioned inside a truncated entry.
-/

namespace PkgTar

/-- Go errors the embedded code can produce. `ioError` stands for any
`*os.PathError`; `invalidArchivePath n` is `fmt.Errorf("invalid archive path: %s", n)`;
`relError` is the error `filepath.Rel` returns when it cannot relativize. -/
inductive GoError where
  | eof
  | unexpectedEOF
  | ioError (msg : String)
  | invalidArchivePath (name : String)
  | relError (basepath targpath : String)
  deriving DecidableEq, Repr

/-- `strings.Split` on a one-character separator, over the character list. -/
def splitOnChar (sep : Char) : List Char → List (List Char)
  | [] => [[]]
  | c :: rest =>
    if c = sep then [] :: splitOnChar sep rest
    else
      match splitOnChar sep rest with
      | [] => [[c]]
      | g :: gs => (c :: g) :: gs

/-- `strings.Split(s, "/")` (also `strings.Split(s, string(filepath.Separator))`
on a Unix host). -/
def stringsSplitSlash (s : String) : List String :=
  (splitOnChar '/' s.data).map String.mk

/-- `strings.Join(elems, "/")`. -/
def joinWithSlash : List String → String
  | [] => ""
  | [s] => s
  | s :: rest => s ++ "/" ++ joinWithSlash rest

/-- One step of the element loop inside Go `path/filepath.Clean`: empty and
`"."` elements are dropped, `".."` pops the previous element unless the output
is empty (root-relative keeps the `".."`, rooted drops it) or already ends in
`".."`. `acc` is the output in reverse order. -/
def cleanStep (rooted : Bool) (acc : List String) (seg : String) : List String :=
  if seg = "" ∨ seg = "." then acc
  else if seg = ".." then
    match acc with
    | [] => if rooted then [] else [".."]
    | a :: rest => if a = ".." then ".." :: a :: rest else rest
  else seg :: acc

/-- Go `path/filepath.Clean` on a Unix host (lexical simplification). -/
def filepathClean (path : String) : String :=
  if path = "" then "."
  else
    let rooted := "/".data.isPrefixOf path.data
    let out := ((stringsSplitSlash path).foldl (cleanStep rooted) []).reverse
    let body := joinWithSlash out
    if rooted then "/" ++ body
    else if body = "" then "." else body

/-- Go `path/filepath.Join`: drop leading empty elements, join the rest with
the separator and `Clean` the result; all elements empty gives `""`. -/
def filepathJoin (elems : List String) : String :=
  match elems.dropWhile (fun e => e == "") with
  | [] => ""
  | rest => filepathClean (joinWithSlash rest)

/-- Go `path/filepath.Split`: split after the final separator into
(directory part including the trailing slash, file part). -/
def filepathSplit (path : String) : String × String :=
  let rev := path.data.reverse
  let fileRev := rev.takeWhile (fun c => c != '/')
  (String.mk (rev.drop fileRev.length).reverse, String.mk fileRev.reverse)

/-- Strip the longest common leading run of segments from two segment lists
(the scan inside Go `filepath.Rel`). -/
def stripCommon : List String → List String → List String × List String
  | b :: bs, t :: ts =>
    if b = t then stripCommon bs ts else (b :: bs, t :: ts)
  | bs, ts => (bs, ts)

/-- Go `path/filepath.Rel` on a Unix host: clean both paths, require both
rooted or both relative, strip the common segment prefix, refuse when the
remaining base still contains `".."`, and otherwise climb with `".."` segments
and descend into the remaining target segments. -/
def filepathRel (basepath targpath : String) : Except GoError String :=
  let base := filepathClean basepath
  let targ := filepathClean targpath
  if targ = base then Except.ok "."
  else if ("/".data.isPrefixOf base.data) ≠ ("/".data.isPrefixOf targ.data) then
    Except.error (GoError.relError basepath targpath)
  else
    let baseSegs := if base = "." then [] else stringsSplitSlash base
    let targSegs := if targ = "." then [] else stringsSplitSlash targ
    let r := stripCommon baseSegs targSegs
    if r.1.contains ".." then Except.error (GoError.relError basepath targpath)
    else Except.ok (joinWithSlash (r.1.map (fun _ => "..") ++ r.2))

/-- Go `filepath.ToSlash`: the identity on a Unix host. -/
def filepathToSlash (path : String) : String := path

/-- Go `filepath.FromSlash`: the identity on a Unix host. -/
def filepathFromSlash (path : String) : String := path

/-- The tar type flags the code distinguishes: `tar.TypeDir`, `tar.TypeReg`,
and everything else (symlink, device, ...). -/
inductive TypeFlag where
  | reg
  | dir
  | other
  deriving DecidableEq, Repr

/-- The fields of `tar.Header` the code reads or writes. -/
structure Header where
  name : String
  mode : Nat
  size : Nat
  typeflag : TypeFlag
  modTime : Int
  deriving DecidableEq, Repr

/-- The accessors of `os.FileInfo` the code uses. `name` is the base name,
`mode` the permission bits, `size` the length in bytes, `modTime` the
modification time; `isDir` is `f.IsDir()` and `isRegular` is
`f.Mode().IsRegular()`. -/
structure FileInfo where
  name : String
  isDir : Bool
  isRegular : Bool
  mode : Nat
  size : Nat
  modTime : Int
  deriving DecidableEq, Repr

/-- One write against the `tar.Writer`. `close` writes the two trailing
zero blocks (end-of-archive marker) and flushes; `flush` only pads out the
current entry, adding no end-of-archive marker. -/
inductive TarAction where
  | writeHeader (h : Header)
  | writePayload (bytes : List Nat)
  | flush
  | close
  deriving DecidableEq, Repr

/-- `io.CopyN(dst, src, n)`: the bytes that reach `dst` and the error, which
is `shortErr` exactly when fewer than `n` bytes were available. -/
def ioCopyN (src : List Nat) (n : Nat) (shortErr : GoError) :
    List Nat × Option GoError :=
  (src.take n, if src.length < n then some shortErr else none)

/-- `tar.FileInfoHeader(f, ...)`: name is the base name with a `/` appended
for directories; size is the byte length for regular files and 0 otherwise;
mode and modification time are copied. -/
def tarFileInfoHeader (f : FileInfo) : Header :=
  ⟨if f.isDir then f.name ++ "/" else f.name,
   f.mode,
   if f.isRegular then f.size else 0,
   if f.isDir then TypeFlag.dir else if f.isRegular then TypeFlag.reg else TypeFlag.other,
   f.modTime⟩

/-- The header `StreamRenameFile` writes: `tar.FileInfoHeader` with the name
replaced by `filepath.ToSlash(filepath.Join(relativePath, tarHeaderFileName))`. -/
def renamedHeader (f : FileInfo) (tarHeaderFileName relativePath : String) : Header :=
  ⟨filepathToSlash (filepathJoin [relativePath, tarHeaderFileName]),
   (tarFileInfoHeader f).mode,
   (tarFileInfoHeader f).size,
   (tarFileInfoHeader f).typeflag,
   (tarFileInfoHeader f).modTime⟩

/-- `StreamRenameFile(f, tarHeaderFileName, relativePath, fullPath, tw)`.
`disk` maps an absolute path to the current contents of the file there
(`none` means `os.Open` fails). The header is written first; non-regular
entries stop there; otherwise the file is opened and `h.Size` bytes are
copied, `io.CopyN` reporting `io.EOF` when the file is shorter. -/
def StreamRenameFile (disk : String → Option (List Nat)) (f : FileInfo)
    (tarHeaderFileName relativePath fullPath : String) :
    List TarAction × Option GoError :=
  let h := renamedHeader f tarHeaderFileName relativePath
  if f.isRegular = false then ([TarAction.writeHeader h], none)
  else
    match disk fullPath with
    | none => ([TarAction.writeHeader h], some (GoError.ioError fullPath))
    | some c =>
      let r := ioCopyN c h.size GoError.eof
      ([TarAction.writeHeader h, TarAction.writePayload r.1], r.2)

/-- `StreamFile(f, shardRelativePath, fullPath, tw)`: `StreamRenameFile` with
the file's own base name. -/
def StreamFile (disk : String → Option (List Nat)) (f : FileInfo)
    (shardRelativePath fullPath : String) : List TarAction × Option GoError :=
  StreamRenameFile disk f f.name shardRelativePath fullPath

/-- The type of the `writeFunc` argument of `Stream` (the `tar.Writer` is
replaced by the returned action trace). -/
abbrev Handler := FileInfo → String → String → List TarAction × Option GoError

/-- `SinceFilterTarFile(since)`: the returned closure calls `StreamFile` only
when `f.ModTime().After(since)` (strictly later), and otherwise returns `nil`
without touching the tar writer. -/
def SinceFilterTarFile (disk : String → Option (List Nat)) (since : Int) : Handler :=
  fun f shardRelativePath fullPath =>
    if since < f.modTime then StreamFile disk f shardRelativePath fullPath
    else ([], none)

/-- One `(path, info, err)` triple yielded by `filepath.Walk`. -/
structure WalkEntry where
  path : String
  info : FileInfo
  err : Option GoError

/-- The walk callback defined inside `Stream`: propagate walk errors; at the
root directory call the handler only when `keepTarOpen` is set (with the bare
`relativePath`); elsewhere compute the containing directory relative to the
walk root and call the handler with `filepath.Join(relativePath, subDir)`. -/
def streamWalkFn (dir relativePath : String) (writeFunc : Handler)
    (keepTarOpen : Bool) (e : WalkEntry) : List TarAction × Option GoError :=
  match e.err with
  | some err => ([], some err)
  | none =>
    if dir = e.path ∧ e.info.isDir = true then
      if keepTarOpen then writeFunc e.info relativePath e.path
      else ([], none)
    else
      match filepathRel dir (filepathSplit e.path).1 with
      | Except.error err => ([], some err)
      | Except.ok subDir =>
        writeFunc e.info (filepathJoin [relativePath, subDir]) e.path

/-- `filepath.Walk`: run the callback on each yielded entry in order,
aborting on the first error (the callbacks here never return `SkipDir`). -/
def runWalk (fn : WalkEntry → List TarAction × Option GoError) :
    List WalkEntry → List TarAction × Option GoError
  | [] => ([], none)
  | e :: rest =>
    match fn e with
    | (acts, some err) => (acts, some err)
    | (acts, none) =>
      let r := runWalk fn rest
      (acts ++ r.1, r.2)

/-- `Stream(w, dir, relativePath, writeFunc, keepTarOpen)`: a `nil` handler is
replaced by `StreamFile`; the walk runs over `entries` (the traversal of
`dir`, root first); the deferred finalizer — `tw.Flush` when `keepTarOpen`,
`tw.Close` otherwise — runs on every exit path, so it ends the trace whether
or not the walk erred. -/
def Stream (disk : String → Option (List Nat)) (entries : List WalkEntry)
    (dir relativePath : String) (writeFunc : Option Handler) (keepTarOpen : Bool) :
    List TarAction × Option GoError :=
  let wf := match writeFunc with
    | none => StreamFile disk
    | some f => f
  let r := runWalk (streamWalkFn dir relativePath wf keepTarOpen) entries
  (r.1 ++ [if keepTarOpen then TarAction.flush else TarAction.close], r.2)

/-- The `os.OpenFile` flag bits the code uses. -/
inductive OpenFlag where
  | O_RDONLY
  | O_WRONLY
  | O_RDWR
  | O_CREATE
  | O_TRUNC
  deriving DecidableEq, Repr

/-- One filesystem side effect of the restorer. -/
inductive FsAction where
  | mkdirAll (path : String) (perm : Nat)
  | openFile (path : String) (flags : List OpenFlag) (perm : Nat)
  | writeAt0 (path : String) (bytes : List Nat)
  | fsync (path : String)
  | closeF (path : String)
  | rename (src dst : String)
  | syncDir (path : String)
  deriving DecidableEq, Repr

/-- `CreateFileFromTar(destPath, tr, hdr)`: open `destPath + ".tmp"` with
`os.O_CREATE|os.O_RDWR` (note: no `os.O_TRUNC`) and mode `hdr.Mode & 0o777`,
copy `hdr.Size` bytes from the entry (`payload` is what the `tar.Reader` can
still deliver; a short entry makes `io.CopyN` fail with
`io.ErrUnexpectedEOF`), then sync, close, and durably rename onto `destPath`.
On a copy error the sync/close/rename steps are skipped (`f.Close` runs via
`defer` but changes no contents). -/
def CreateFileFromTar (destPath : String) (payload : List Nat) (hdr : Header) :
    List FsAction × Option GoError :=
  let tmp := destPath ++ ".tmp"
  let perm := hdr.mode &&& 511
  let r := ioCopyN payload hdr.size GoError.unexpectedEOF
  match r.2 with
  | some e =>
    ([FsAction.openFile tmp [OpenFlag.O_CREATE, OpenFlag.O_RDWR] perm,
      FsAction.writeAt0 tmp r.1], some e)
  | none =>
    ([FsAction.openFile tmp [OpenFlag.O_CREATE, OpenFlag.O_RDWR] perm,
      FsAction.writeAt0 tmp r.1,
      FsAction.fsync tmp,
      FsAction.closeF tmp,
      FsAction.rename tmp destPath], none)

/-- The body of `extractFile(tr, dir)` after `tr.Next()` has delivered `hdr`
and positioned the reader at `payload`: split the native form of the name on
the separator, reject names with fewer than 3 segments, drop the first 3
segments to get the shard-relative path, create the parent directory — for
directory entries with the header's permission bits, for file entries with
0755 and only when the parent is nonempty — and materialize file entries via
`CreateFileFromTar`. -/
def extractFile (dir : String) (hdr : Header) (payload : List Nat) :
    List FsAction × Option GoError :=
  let sections := stringsSplitSlash (filepathFromSlash hdr.name)
  if sections.length < 3 then ([], some (GoError.invalidArchivePath hdr.name))
  else
    let relativePath := filepathJoin (sections.drop 3)
    let subDir := (filepathSplit relativePath).1
    if hdr.typeflag = TypeFlag.dir then
      ([FsAction.mkdirAll (filepathJoin [dir, subDir]) (hdr.mode &&& 511)], none)
    else
      let pre := if subDir ≠ "" then
        [FsAction.mkdirAll (filepathJoin [dir, subDir]) 493] else []
      let r := CreateFileFromTar (filepathJoin [dir, relativePath]) payload hdr
      (pre ++ r.1, r.2)

/-- The loop inside `Restore`: the archive is the list of entries `tr.Next()`
will deliver followed by the terminal result of the last `Next` (`none` for a
clean `io.EOF`, `some e` for a decode error). `io.EOF` breaks the loop and
`file.SyncDir(dir)` runs; any other error returns immediately. -/
def restoreLoop (dir : String) :
    List (Header × List Nat) → Option GoError → List FsAction × Option GoError
  | [], none => ([FsAction.syncDir dir], none)
  | [], some e => ([], some e)
  | (hdr, payload) :: rest, terminal =>
    match extractFile dir hdr payload with
    | (acts, some e) => (acts, some e)
    | (acts, none) =>
      let r := restoreLoop dir rest terminal
      (acts ++ r.1, r.2)

/-- `Restore(r, dir)` over the decoded archive. -/
def Restore (dir : String) (entries : List (Header × List Nat))
    (terminal : Option GoError) : List FsAction × Option GoError :=
  restoreLoop dir entries terminal

/-- Contents of a plain file after writing `written` from offset 0 into a
file that previously held `old` (no truncation). -/
def overwriteAt0 (old written : List Nat) : List Nat :=
  written ++ old.drop written.length

/-- The file contents at `p` in an association-list filesystem. -/
def fsLookup : List (String × List Nat) → String → Option (List Nat)
  | [], _ => none
  | (q, c) :: rest, p => if q = p then some c else fsLookup rest p

/-- Remove the file at `p`. -/
def fsRemove (fs : List (String × List Nat)) (p : String) :
    List (String × List Nat) :=
  fs.filter (fun e => e.1 != p)

/-- Set the contents of the file at `p`. -/
def fsSet (fs : List (String × List Nat)) (p : String) (c : List Nat) :
    List (String × List Nat) :=
  (p, c) :: fsRemove fs p

/-- POSIX semantics of one restore action on file contents: `openFile`
creates an empty file when absent and `O_CREATE` is given, and truncates an
existing file only when `O_TRUNC` is given; `writeAt0` overwrites from offset
0 leaving any longer tail in place; `rename` moves contents; directory
creation, sync and close do not change file contents. -/
def applyAction (fs : List (String × List Nat)) : FsAction → List (String × List Nat)
  | FsAction.openFile p flags _ =>
    match fsLookup fs p with
    | none => if flags.contains OpenFlag.O_CREATE then fsSet fs p [] else fs
    | some _ => if flags.contains OpenFlag.O_TRUNC then fsSet fs p [] else fs
  | FsAction.writeAt0 p bytes =>
    fsSet fs p (overwriteAt0 ((fsLookup fs p).getD []) bytes)
  | FsAction.rename src dst =>
    match fsLookup fs src with
    | none => fs
    | some c => fsSet (fsRemove fs src) dst c
  | _ => fs

/-- Run a trace of restore actions against an association-list filesystem. -/
def runActions (fs : List (String × List Nat)) (acts : List FsAction) :
    List (String × List Nat) :=
  acts.foldl applyAction fs

/-! Helper lemmas shared by the claim theorems. -/

theorem streamRenameFile_acts (disk : String → Option (List Nat)) (f : FileInfo)
    (nm rel full : String) :
    ∃ rest, (StreamRenameFile disk f nm rel full).1 =
      TarAction.writeHeader (renamedHeader f nm rel) :: rest := by
  by_cases hreg : f.isRegular = false
  · exact ⟨[], by simp [StreamRenameFile, hreg]⟩
  · cases hd : disk full with
    | none => exact ⟨[], by simp [StreamRenameFile, hreg, hd]⟩
    | some c =>
      exact ⟨[TarAction.writePayload (ioCopyN c (renamedHeader f nm rel).size GoError.eof).1],
        by simp [StreamRenameFile, hreg, hd]⟩

theorem close_notin_srf (disk : String → Option (List Nat)) (f : FileInfo)
    (nm rel full : String) :
    TarAction.close ∉ (StreamRenameFile disk f nm rel full).1 := by
  by_cases hreg : f.isRegular = false
  · simp [StreamRenameFile, hreg]
  · cases hd : disk full <;> simp [StreamRenameFile, hreg, hd]

theorem close_notin_walkfn (disk : String → Option (List Nat)) (dir rel : String)
    (keep : Bool) (e : WalkEntry) :
    TarAction.close ∉ (streamWalkFn dir rel (StreamFile disk) keep e).1 := by
  cases he : e.err with
  | some err => simp [streamWalkFn, he]
  | none =>
    by_cases hroot : dir = e.path ∧ e.info.isDir = true
    · cases keep with
      | false => simp [streamWalkFn, he, hroot]
      | true =>
        simp only [streamWalkFn, he, hroot, if_true, if_pos]
        exact close_notin_srf disk e.info e.info.name rel e.path
    · cases hrel : filepathRel dir (filepathSplit e.path).1 with
      | error err => simp [streamWalkFn, he, hroot, hrel]
      | ok subDir =>
        simp only [streamWalkFn, he, hroot, hrel, if_neg, if_false]
        exact close_notin_srf disk e.info e.info.name (filepathJoin [rel, subDir]) e.path

theorem close_notin_runwalk (disk : String → Option (List Nat)) (dir rel : String)
    (keep : Bool) (entries : List WalkEntry) :
    TarAction.close ∉ (runWalk (streamWalkFn dir rel (StreamFile disk) keep) entries).1 := by
  induction entries with
  | nil => simp [runWalk]
  | cons e rest ih =>
    have h1 := close_notin_walkfn disk dir rel keep e
    cases hp : streamWalkFn dir rel (StreamFile disk) keep e with
    | mk acts err =>
      rw [hp] at h1
      cases err with
      | some e2 => simpa [runWalk, hp] using h1
      | none =>
        simp only [runWalk, hp, List.mem_append]
        intro hmem
        rcases hmem with h | h
        · exact h1 h
        · exact ih h

theorem syncDir_notin_cfft (destPath : String) (payload : List Nat) (hdr : Header)
    (p : String) :
    FsAction.syncDir p ∉ (CreateFileFromTar destPath payload hdr).1 := by
  cases h : (ioCopyN payload hdr.size GoError.unexpectedEOF).2 <;>
    simp [CreateFileFromTar, h]

theorem syncDir_notin_extract (dir : String) (hdr : Header) (payload : List Nat)
    (p : String) :
    FsAction.syncDir p ∉ (extractFile dir hdr payload).1 := by
  simp only [extractFile]
  split
  · simp
  · split
    · simp
    · intro hmem
      rcases List.mem_append.mp hmem with h | h
      · revert h; split <;> simp
      · exact syncDir_notin_cfft _ _ _ _ h

theorem fsLookup_fsSet_self (fs : List (String × List Nat)) (p : String) (c : List Nat) :
    fsLookup (fsSet fs p c) p = some c := by
  simp [fsSet, fsLookup]

/-! Claim theorems. -/

/-- C1: the spec says every archive entry whose name has fewer than 4 path
segments is rejected by the restore with an "invalid archive path" error and
no file is written for it. The code instead checks `len(sections) < 3`: the
3-segment entry `"db/rp/1"` passes the check, its shard-relative path becomes
empty, and the code materializes a file at the destination root itself,
renaming `"dest.tmp"` onto `"dest"`; only entries with at most 2 segments are
rejected. -/
theorem extractFile_C1_bug :
    (extractFile "dest" ⟨"db/rp/1", 420, 1, TypeFlag.reg, 0⟩ [9]).2 = none ∧
    FsAction.rename "dest.tmp" "dest" ∈
      (extractFile "dest" ⟨"db/rp/1", 420, 1, TypeFlag.reg, 0⟩ [9]).1 ∧
    (extractFile "dest" ⟨"db/rp", 420, 0, TypeFlag.reg, 0⟩ []).2 =
      some (GoError.invalidArchivePath "db/rp") := by
  decide

/-- C2: the spec says a directory-typed entry causes the directory
corresponding to the entry to be created (with its permission bits). The code
passes `filepath.Join(dir, subDir)` to `MkdirAll`, where `subDir` is the
parent of the entry's shard-relative path, so the directory entry
`"db/rp/1/index"` (with or without a trailing slash) only runs
`MkdirAll("dest", 0o755)` — the destination root — and `"dest/index"` is never
created; the nested directory entry `"db/rp/1/a/b"` creates `"dest/a"`, not
`"dest/a/b"`. -/
theorem extractFile_C2_bug :
    extractFile "dest" ⟨"db/rp/1/index", 493, 0, TypeFlag.dir, 0⟩ [] =
      ([FsAction.mkdirAll "dest" 493], none) ∧
    extractFile "dest" ⟨"db/rp/1/index/", 493, 0, TypeFlag.dir, 0⟩ [] =
      ([FsAction.mkdirAll "dest" 493], none) ∧
    extractFile "dest" ⟨"db/rp/1/a/b", 493, 0, TypeFlag.dir, 0⟩ [] =
      ([FsAction.mkdirAll "dest/a" 493], none) := by
  decide

/-- C3 counterexample: `CreateFileFromTar` opens the temporary file with
`O_CREATE|O_RDWR` but not `O_TRUNC`, so a pre-existing file at
`"dest.tmp"` holding `[1, 2, 3]` is not truncated: restoring a 1-byte entry
`[9]` materializes `[9, 2, 3]` at `"dest"` — the old temporary contents
survive into the materialized file, contradicting the claim. -/
theorem CreateFileFromTar_C3_cex :
    fsLookup
      (runActions [("dest.tmp", [1, 2, 3])]
        (CreateFileFromTar "dest" [9] ⟨"db/rp/1/n", 420, 1, TypeFlag.reg, 0⟩).1)
      "dest" = some [9, 2, 3] ∧
    fsLookup
      (runActions [("dest.tmp", [1, 2, 3])]
        (CreateFileFromTar "dest" [9] ⟨"db/rp/1/n", 420, 1, TypeFlag.reg, 0⟩).1)
      "dest" ≠ some [9] := by
  decide

/-- C3 amended: for every regular-file entry materialized by the restore, the
Safe Materializer opens (creating with the entry's permission bits if absent,
but NOT truncating if present) a temporary file at the destination path with
".tmp" appended, before copying the payload into it from offset 0; the
materialized file's contents are the copied payload followed by whatever tail
of a pre-existing temporary file extends beyond the payload length. -/
theorem CreateFileFromTar_amended (fs : List (String × List Nat))
    (destPath : String) (payload : List Nat) (hdr : Header)
    (h : hdr.size ≤ payload.length) :
    (CreateFileFromTar destPath payload hdr).2 = none ∧
    (CreateFileFromTar destPath payload hdr).1.head? =
      some (FsAction.openFile (destPath ++ ".tmp")
        [OpenFlag.O_CREATE, OpenFlag.O_RDWR] (hdr.mode &&& 511)) ∧
    fsLookup (runActions fs (CreateFileFromTar destPath payload hdr).1) destPath =
      some (overwriteAt0 ((fsLookup fs (destPath ++ ".tmp")).getD [])
        (payload.take hdr.size)) := by
  have hnot : ¬ payload.length < hdr.size := not_lt.mpr h
  refine ⟨by simp [CreateFileFromTar, ioCopyN, hnot], by simp [CreateFileFromTar, ioCopyN, hnot], ?_⟩
  simp only [CreateFileFromTar, ioCopyN, hnot, if_false, ite_false, if_neg]
  cases hl : fsLookup fs (destPath ++ ".tmp") with
  | none =>
    simp [runActions, applyAction, hl, fsLookup_fsSet_self, overwriteAt0]
  | some old =>
    simp [runActions, applyAction, hl, fsLookup_fsSet_self, overwriteAt0]

/-- C3 amended witness: a concrete run of the amended statement, with a stale
3-byte temporary file and a 1-byte entry. -/
theorem CreateFileFromTar_amended_witness :
    fsLookup
      (runActions [("old.tmp", [1, 2, 3])]
        (CreateFileFromTar "old" [9] ⟨"db/rp/1/n", 420, 1, TypeFlag.reg, 0⟩).1)
      "old" = some [9, 2, 3] :=
  (CreateFileFromTar_amended [("old.tmp", [1, 2, 3])] "old" [9]
    ⟨"db/rp/1/n", 420, 1, TypeFlag.reg, 0⟩ (by decide)).2.2

/-- C4: the handler produced by `SinceFilterTarFile since` calls the
downstream `StreamFile` exactly when the entry's modification time is
strictly after the cutoff, and for all other entries returns success without
emitting any tar action. -/
theorem SinceFilterTarFile_C4 (disk : String → Option (List Nat)) (since : Int)
    (f : FileInfo) (rel full : String) :
    (since < f.modTime →
      SinceFilterTarFile disk since f rel full = StreamFile disk f rel full) ∧
    (f.modTime ≤ since →
      SinceFilterTarFile disk since f rel full = ([], none)) := by
  constructor
  · intro hlt; simp [SinceFilterTarFile, hlt]
  · intro hle; simp [SinceFilterTarFile, not_lt.mpr hle]

/-- C4 witness: a file with modification time 7 against cutoff 5 is passed to
`StreamFile`; one with modification time 5 is skipped with no action. -/
theorem SinceFilterTarFile_C4_witness :
    SinceFilterTarFile (fun _ => none) 5 ⟨"f", false, true, 420, 2, 7⟩ "db/rp/1" "/x/f" =
      StreamFile (fun _ => none) ⟨"f", false, true, 420, 2, 7⟩ "db/rp/1" "/x/f" ∧
    SinceFilterTarFile (fun _ => none) 5 ⟨"g", false, true, 420, 2, 5⟩ "db/rp/1" "/x/g" =
      ([], none) :=
  ⟨(SinceFilterTarFile_C4 (fun _ => none) 5 ⟨"f", false, true, 420, 2, 7⟩ "db/rp/1" "/x/f").1
      (by decide),
   (SinceFilterTarFile_C4 (fun _ => none) 5 ⟨"g", false, true, 420, 2, 5⟩ "db/rp/1" "/x/g").2
      (by decide)⟩

/-- C10: passing `nil` (`none`) as the handler makes `Stream` behave exactly
as if the default `StreamFile` handler had been passed, and `StreamFile`
writes each entry under its own base name via `StreamRenameFile`. -/
theorem Stream_C10 (disk : String → Option (List Nat)) (entries : List WalkEntry)
    (dir rel : String) (keep : Bool) :
    Stream disk entries dir rel none keep =
      Stream disk entries dir rel (some (StreamFile disk)) keep ∧
    ∀ (f : FileInfo) (srp fp : String),
      StreamFile disk f srp fp = StreamRenameFile disk f f.name srp fp :=
  ⟨rfl, fun _ _ _ => rfl⟩

/-- C7: every entry written by `StreamRenameFile` carries the name
`filepath.ToSlash(filepath.Join(relativePath, tarHeaderFileName))` (the join
of the logical directory and the possibly overridden base name, with
archive-native slash separators), and for a non-regular entry the writer
stops after the header: the trace is exactly the one header write, with no
payload. -/
theorem StreamRenameFile_C7 (disk : String → Option (List Nat)) (f : FileInfo)
    (nm rel full : String) :
    (StreamRenameFile disk f nm rel full).1.head? =
      some (TarAction.writeHeader (renamedHeader f nm rel)) ∧
    (renamedHeader f nm rel).name = filepathToSlash (filepathJoin [rel, nm]) ∧
    (f.isRegular = false →
      StreamRenameFile disk f nm rel full =
        ([TarAction.writeHeader (renamedHeader f nm rel)], none)) := by
  refine ⟨?_, rfl, ?_⟩
  · obtain ⟨rest, hacts⟩ := streamRenameFile_acts disk f nm rel full
    rw [hacts]; rfl
  · intro hreg
    simp [StreamRenameFile, hreg]

/-- C7 witness: a directory-typed entry produces exactly one header write,
named by the slash join of the logical directory and the base name. -/
theorem StreamRenameFile_C7_witness :
    StreamRenameFile (fun _ => none) ⟨"index", true, false, 493, 0, 0⟩
        "index" "db/rp/1" "/shard/index" =
      ([TarAction.writeHeader
          (renamedHeader ⟨"index", true, false, 493, 0, 0⟩ "index" "db/rp/1")], none) :=
  (StreamRenameFile_C7 (fun _ => none) ⟨"index", true, false, 493, 0, 0⟩
      "index" "db/rp/1" "/shard/index").2.2 rfl

/-- C6: for a regular file whose on-disk contents are `c`, `StreamRenameFile`
copies exactly `h.Size = f.size` bytes into the payload when `c` is long
enough (the payload written has length exactly `f.size`), and returns the
`io.EOF` error from `io.CopyN` when the file holds fewer bytes than the
header declared (the file shrank after being stat'd). -/
theorem StreamRenameFile_C6 (disk : String → Option (List Nat)) (f : FileInfo)
    (nm rel full : String) (c : List Nat)
    (hreg : f.isRegular = true) (hdisk : disk full = some c) :
    (f.size ≤ c.length →
      StreamRenameFile disk f nm rel full =
        ([TarAction.writeHeader (renamedHeader f nm rel),
          TarAction.writePayload (c.take f.size)], none) ∧
      (c.take f.size).length = f.size) ∧
    (c.length < f.size →
      (StreamRenameFile disk f nm rel full).2 = some GoError.eof) := by
  have hsz : (renamedHeader f nm rel).size = f.size := by
    simp [renamedHeader, tarFileInfoHeader, hreg]
  constructor
  · intro hle
    have hnot : ¬ c.length < f.size := not_lt.mpr hle
    constructor
    · simp [StreamRenameFile, hreg, hdisk, ioCopyN, hsz, hnot]
    · simp [List.length_take, Nat.min_eq_left hle]
  · intro hlt
    simp [StreamRenameFile, hreg, hdisk, ioCopyN, hsz, hlt]

/-- C6 witness: a 2-byte header over a 3-byte file copies exactly 2 bytes; the
same header over a 1-byte file (the file shrank) fails with `io.EOF`. -/
theorem StreamRenameFile_C6_witness :
    StreamRenameFile (fun p => if p = "/x/f" then some [1, 2, 3] else none)
        ⟨"f", false, true, 420, 2, 0⟩ "f" "db/rp/1" "/x/f" =
      ([TarAction.writeHeader (renamedHeader ⟨"f", false, true, 420, 2, 0⟩ "f" "db/rp/1"),
        TarAction.writePayload [1, 2]], none) ∧
    (StreamRenameFile (fun p => if p = "/x/g" then some [1] else none)
        ⟨"g", false, true, 420, 2, 0⟩ "g" "db/rp/1" "/x/g").2 = some GoError.eof :=
  ⟨((StreamRenameFile_C6 (fun p => if p = "/x/f" then some [1, 2, 3] else none)
      ⟨"f", false, true, 420, 2, 0⟩ "f" "db/rp/1" "/x/f" [1, 2, 3] rfl (by decide)).1
      (by decide)).1,
   (StreamRenameFile_C6 (fun p => if p = "/x/g" then some [1] else none)
      ⟨"g", false, true, 420, 2, 0⟩ "g" "db/rp/1" "/x/g" [1] rfl (by decide)).2
      (by decide)⟩

/-- C5: for the root entry of the walk (path equal to the walk root,
directory-typed, no walk error): with "keep open" unset the callback returns
success without invoking the handler at all (the result is `([], none)` for
every handler); with "keep open" set the callback is exactly one handler
invocation, with the bare logical prefix as its logical directory. Over the
one-entry walk of an empty directory, the whole stream is the handler's
output plus the final flush, and with the default handler it contains a
header entry for the root, so the produced stream is non-empty. -/
theorem Stream_C5 (disk : String → Option (List Nat)) (dir rel : String)
    (wf : Handler) (e : WalkEntry)
    (hpath : e.path = dir) (hdir : e.info.isDir = true) (herr : e.err = none) :
    streamWalkFn dir rel wf false e = ([], none) ∧
    streamWalkFn dir rel wf true e = wf e.info rel e.path ∧
    Stream disk [e] dir rel (some wf) true =
      ((wf e.info rel e.path).1 ++ [TarAction.flush], (wf e.info rel e.path).2) ∧
    TarAction.writeHeader (renamedHeader e.info e.info.name rel) ∈
      (Stream disk [e] dir rel none true).1 := by
  have h1 : streamWalkFn dir rel wf false e = ([], none) := by
    simp [streamWalkFn, herr, hpath, hdir]
  have h2 : ∀ g : Handler, streamWalkFn dir rel g true e = g e.info rel e.path := by
    intro g
    simp [streamWalkFn, herr, hpath, hdir]
  refine ⟨h1, h2 wf, ?_, ?_⟩
  · cases hp : wf e.info rel e.path with
    | mk acts err =>
      cases err with
      | some e2 => simp [Stream, runWalk, h2 wf, hp]
      | none => simp [Stream, runWalk, h2 wf, hp]
  · obtain ⟨rest, hacts⟩ := streamRenameFile_acts disk e.info e.info.name rel e.path
    have hsf : StreamFile disk e.info rel e.path =
        StreamRenameFile disk e.info e.info.name rel e.path := rfl
    cases hp : StreamRenameFile disk e.info e.info.name rel e.path with
    | mk acts err =>
      rw [hp] at hacts
      cases err with
      | some e2 => simp [Stream, runWalk, h2 (StreamFile disk), hsf, hp, hacts]
      | none => simp [Stream, runWalk, h2 (StreamFile disk), hsf, hp, hacts]

/-- C5 witness: a concrete root entry of an empty shard directory, with a
trivial handler: skipped when "keep open" is unset, invoked with the bare
prefix when set. -/
theorem Stream_C5_witness :
    streamWalkFn "root" "db/rp/1" (fun _ _ _ => ([], none)) false
        ⟨"root", ⟨"root", true, false, 493, 0, 0⟩, none⟩ = ([], none) ∧
    streamWalkFn "root" "db/rp/1" (fun _ _ _ => ([TarAction.writePayload []], none)) true
        ⟨"root", ⟨"root", true, false, 493, 0, 0⟩, none⟩ =
      ([TarAction.writePayload []], none) :=
  ⟨(Stream_C5 (fun _ => none) "root" "db/rp/1" (fun _ _ _ => ([], none))
      ⟨"root", ⟨"root", true, false, 493, 0, 0⟩, none⟩ rfl rfl rfl).1,
   (Stream_C5 (fun _ => none) "root" "db/rp/1"
      (fun _ _ _ => ([TarAction.writePayload []], none))
      ⟨"root", ⟨"root", true, false, 493, 0, 0⟩, none⟩ rfl rfl rfl).2.1⟩

/-- C8: the deferred finalizer runs on every exit path of `Stream`
(success or error): the trace always ends with `tw.Flush` when "keep open" is
set and with `tw.Close` otherwise; moreover with the default handler and
"keep open" set, no `Close` (no end-of-archive marker) appears anywhere in
the trace. -/
theorem Stream_C8 (disk : String → Option (List Nat)) (entries : List WalkEntry)
    (dir rel : String) (writeFunc : Option Handler) (keep : Bool) :
    (Stream disk entries dir rel writeFunc keep).1.getLast? =
      some (if keep then TarAction.flush else TarAction.close) ∧
    TarAction.close ∉ (Stream disk entries dir rel none true).1 := by
  constructor
  · simp only [Stream]
    exact List.getLast?_append_cons _ _ []
  · simp only [Stream, List.mem_append]
    intro hmem
    rcases hmem with h | h
    · exact close_notin_runwalk disk dir rel true entries h
    · simp at h

/-- C8 witness: concrete runs of the finalization property — an empty walk
with "keep open" unset ends in `Close`, and with it set ends in `Flush`. -/
theorem Stream_C8_witness :
    (Stream (fun _ => none) [] "root" "db/rp/1" none false).1.getLast? =
      some (if false then TarAction.flush else TarAction.close) ∧
    (Stream (fun _ => none) [] "root" "db/rp/1" none true).1.getLast? =
      some (if true then TarAction.flush else TarAction.close) :=
  ⟨(Stream_C8 (fun _ => none) [] "root" "db/rp/1" none false).1,
   (Stream_C8 (fun _ => none) [] "root" "db/rp/1" none true).1⟩

/-- C10 witness: a concrete instantiation of the nil-handler defaulting. -/
theorem Stream_C10_witness :
    Stream (fun _ => none) [] "root" "db/rp/1" none false =
      Stream (fun _ => none) [] "root" "db/rp/1"
        (some (StreamFile (fun _ => none))) false :=
  (Stream_C10 (fun _ => none) [] "root" "db/rp/1" false).1

/-- C9: `Restore` decodes entries sequentially; a clean end-of-archive
(`io.EOF` from `tr.Next`, the `none` terminal) with every entry extracting
successfully is exactly the success case; on success the final action is the
directory-sync of the destination root (success is returned only after it);
any extraction or decode error aborts immediately and no directory-sync of
any path is ever performed. -/
theorem Restore_C9 (dir : String) (entries : List (Header × List Nat))
    (terminal : Option GoError) :
    ((Restore dir entries terminal).2 = none ↔
      (terminal = none ∧ ∀ e ∈ entries, (extractFile dir e.1 e.2).2 = none)) ∧
    ((Restore dir entries terminal).2 = none →
      (Restore dir entries terminal).1.getLast? = some (FsAction.syncDir dir)) ∧
    ((Restore dir entries terminal).2 ≠ none →
      ∀ p, FsAction.syncDir p ∉ (Restore dir entries terminal).1) := by
  induction entries with
  | nil =>
    cases terminal with
    | none => simp [Restore, restoreLoop]
    | some e => simp [Restore, restoreLoop]
  | cons hd rest ih =>
    obtain ⟨hdr, payload⟩ := hd
    cases hx : extractFile dir hdr payload with
    | mk acts err =>
      cases err with
      | some e =>
        have hre : Restore dir ((hdr, payload) :: rest) terminal = (acts, some e) := by
          simp [Restore, restoreLoop, hx]
        rw [hre]
        refine ⟨?_, by simp, ?_⟩
        · simp [hx]
        · intro _ p
          have hni := syncDir_notin_extract dir hdr payload p
          rw [hx] at hni
          exact hni
      | none =>
        have hre : Restore dir ((hdr, payload) :: rest) terminal =
            (acts ++ (Restore dir rest terminal).1, (Restore dir rest terminal).2) := by
          simp [Restore, restoreLoop, hx]
        rw [hre]
        refine ⟨?_, ?_, ?_⟩
        · simp only []
          rw [ih.1]
          simp [hx]
        · intro hnone
          simp only [] at hnone
          have hlast := ih.2.1 hnone
          have hne : (Restore dir rest terminal).1 ≠ [] := by
            intro hnil
            rw [hnil] at hlast
            simp at hlast
          simp only []
          rw [List.getLast?_append_of_ne_nil acts hne]
          exact hlast
        · intro hsome p
          simp only [] at hsome
          have hrest := ih.2.2 hsome p
          have hni := syncDir_notin_extract dir hdr payload p
          rw [hx] at hni
          simp only [List.mem_append]
          intro hmem
          rcases hmem with h | h
          · exact hni h
          · exact hrest h

/-- C9 witness: restoring an empty archive with a clean end-of-archive
terminal succeeds, and its final (and only) action is the directory-sync of
the destination root. -/
theorem Restore_C9_witness :
    (Restore "dest" [] none).1.getLast? = some (FsAction.syncDir "dest") :=
  (Restore_C9 "dest" [] none).2.1 rfl

end PkgTar
